import Mathlib

/-!
Shallow embedding of src/darcy.cpp (Darcy-flow grid, stability checks and
residual diagnostics) and proofs about it.  Machine doubles are modelled as
rationals; a double that may be NaN is modelled by the type FVal below.
-/

set_option linter.unusedVariables false

/-- Model of a C++ double that may be NaN: either NaN or a finite rational. -/
inductive FVal where
  | nan : FVal
  | fin (q : ℚ) : FVal
deriving DecidableEq

/-- Model of the Float3 vector type (finite components). -/
structure Float3 where
  x : ℚ
  y : ℚ
  z : ℚ
deriving DecidableEq

/-- Model of the Float4 type used for particle pressure forces. -/
structure Float4 where
  x : ℚ
  y : ℚ
  z : ℚ
  w : ℚ
deriving DecidableEq

/-- Grid geometry: cell counts grid.num and domain lengths grid.L per axis. -/
structure Grid where
  num0 : ℤ
  num1 : ℤ
  num2 : ℤ
  L0 : ℚ
  L1 : ℚ
  L2 : ℚ

/-- The darcy struct: grid dimensions and the per-cell arrays, modelled as
total functions from the flat offset. -/
structure Darcy where
  nx : ℤ
  ny : ℤ
  nz : ℤ
  p : ℤ → FVal
  v : ℤ → Float3
  phi : ℤ → FVal
  dphi : ℤ → FVal
  norm : ℤ → FVal
  f_p : ℤ → Float4

/-- Physical parameters (only the dynamic viscosity params.mu is used here). -/
structure Params where
  mu : ℚ

/-- Time integration state: time.dt and time.current. -/
structure TimeCfg where
  dt : ℚ
  current : ℚ

/-- The DEM object state read by the darcy.cpp functions. -/
structure DEM where
  grid : Grid
  darcy : Darcy
  params : Params
  time : TimeCfg
  np : ℤ

/-- DEM::darcyCells, with ghost nodes: (nx+2)*(ny+2)*(nz+2). -/
def darcyCells (d : Darcy) : ℤ :=
  (d.nx + 2) * (d.ny + 2) * (d.nz + 2)

/-- DEM::darcyCellsVelocity, with ghost nodes: (nx+3)*(ny+3)*(nz+3). -/
def darcyCellsVelocity (d : Darcy) : ℤ :=
  (d.nx + 3) * (d.ny + 3) * (d.nz + 3)

/-- DEM::d_idx, 3D to 1D index with ghost nodes at -1 and WIDTH:
(x+1) + (nx+2)*(y+1) + (nx+2)*(ny+2)*(z+1). -/
def d_idx (d : Darcy) (x y z : ℤ) : ℤ :=
  (x + 1) + (d.nx + 2) * (y + 1) + (d.nx + 2) * (d.ny + 2) * (z + 1)

/-- DEM::d_vidx, 3D to 1D index for the face-velocity grid. -/
def d_vidx (d : Darcy) (x y z : ℤ) : ℤ :=
  (x + 1) + (d.nx + 3) * (y + 1) + (d.nx + 3) * (d.ny + 3) * (z + 1)

/-- A coordinate is in the padded (ghost-including) scalar-grid range. -/
def inPad (d : Darcy) (x y z : ℤ) : Prop :=
  -1 ≤ x ∧ x ≤ d.nx ∧ -1 ≤ y ∧ y ≤ d.ny ∧ -1 ≤ z ∧ z ≤ d.nz

instance (d : Darcy) (x y z : ℤ) : Decidable (inPad d x y z) := by
  unfold inPad; infer_instance

/-- A concrete 1x1x1 darcy struct used by witnesses. -/
def dWitness : Darcy :=
  { nx := 1, ny := 1, nz := 1
    p := fun _ => .fin 0, v := fun _ => ⟨0, 0, 0⟩
    phi := fun _ => .fin 0, dphi := fun _ => .fin 0
    norm := fun _ => .fin 0, f_p := fun _ => ⟨0, 0, 0, 0⟩ }

/-- Cell size along x: grid.L[0]/grid.num[0]. -/
def dxQ (s : DEM) : ℚ := s.grid.L0 / (s.grid.num0 : ℚ)

/-- Cell size along y: grid.L[1]/grid.num[1]. -/
def dyQ (s : DEM) : ℚ := s.grid.L1 / (s.grid.num1 : ℚ)

/-- Cell size along z: grid.L[2]/grid.num[2]. -/
def dzQ (s : DEM) : ℚ := s.grid.L2 / (s.grid.num2 : ℚ)

/-- The smallest grid spacing, fmin(dx, fmin(dy, dz)). -/
def dminQ (s : DEM) : ℚ := min (dxQ s) (min (dyQ s) (dzQ s))

/-- Left-hand side of the von Neumann diffusion check:
params.mu * time.dt / (dmin*dmin). -/
def diffusionLHS (s : DEM) : ℚ :=
  s.params.mu * s.time.dt / (dminQ s * dminQ s)

/-- The combined Courant number of one cell in the advection check:
v.x*dt/dx + v.y*dt/dy + v.z*dt/dz with v read through d_idx. -/
def courantQ (s : DEM) (c : ℤ × ℤ × ℤ) : ℚ :=
  (s.darcy.v (d_idx s.darcy c.1 c.2.1 c.2.2)).x * s.time.dt / dxQ s +
  (s.darcy.v (d_idx s.darcy c.1 c.2.1 c.2.2)).y * s.time.dt / dyQ s +
  (s.darcy.v (d_idx s.darcy c.1 c.2.1 c.2.2)).z * s.time.dt / dzQ s

/-- The interior cells in the scan order of checkDarcyStability:
x outermost, then y, then z. -/
def cellsXYZ (nx ny nz : ℤ) : List (ℤ × ℤ × ℤ) :=
  (List.range nx.toNat).flatMap fun (x : ℕ) =>
    (List.range ny.toNat).flatMap fun (y : ℕ) =>
      (List.range nz.toNat).map fun (z : ℕ) => ((x : ℤ), (y : ℤ), (z : ℤ))

/-- The interior cells in the scan order of the residual statistics:
z outermost, then y, then x innermost. -/
def cellsZYX (nx ny nz : ℤ) : List (ℤ × ℤ × ℤ) :=
  (List.range nz.toNat).flatMap fun (z : ℕ) =>
    (List.range ny.toNat).flatMap fun (y : ℕ) =>
      (List.range nx.toNat).map fun (x : ℕ) => ((x : ℤ), (y : ℤ), (z : ℤ))

/-- Outcome of DEM::checkDarcyStability: normal return, exit(1) from the
diffusion check, or exit(1) from the advection check reporting the cell
coordinates and its velocity. -/
inductive StabResult where
  | ok : StabResult
  | diffusionUnstable : StabResult
  | advectionUnstable (x y z : ℤ) (v : Float3) : StabResult
deriving DecidableEq

/-- DEM::checkDarcyStability: diffusion (von Neumann) check first, then a
scan of the interior cells in x,y,z loop order stopping at the first cell
whose combined Courant number exceeds 1. -/
def checkDarcyStability (s : DEM) : StabResult :=
  if diffusionLHS s > 1/2 then .diffusionUnstable
  else
    match (cellsXYZ s.darcy.nx s.darcy.ny s.darcy.nz).find?
        (fun c => decide (courantQ s c > 1)) with
    | some c => .advectionUnstable c.1 c.2.1 c.2.2
        (s.darcy.v (d_idx s.darcy c.1 c.2.1 c.2.2))
    | none => .ok

/-- C++ double-to-int cast: truncation toward zero. -/
def cTrunc (q : ℚ) : ℤ := if q < 0 then ⌈q⌉ else ⌊q⌋

/-- Payload of the fatal NaN diagnostic: cell coordinates, simulation time
and the iteration count int(time.current/time.dt). -/
structure Fatal where
  x : ℤ
  y : ℤ
  z : ℤ
  t : ℚ
  iter : ℤ
deriving DecidableEq

/-- The fatal diagnostic emitted for a NaN residual found at cell c. -/
def fatalAt (s : DEM) (c : ℤ × ℤ × ℤ) : Fatal :=
  ⟨c.1, c.2.1, c.2.2, s.time.current, cTrunc (s.time.current / s.time.dt)⟩

/-- The residual-norm value of cell c, read through d_idx. -/
def normAt (s : DEM) (c : ℤ × ℤ × ℤ) : FVal :=
  s.darcy.norm (d_idx s.darcy c.1 c.2.1 c.2.2)

/-- A read of darcy.norm, threading the DEM state explicitly to record that
the read leaves the state untouched. -/
def readNorm (s : DEM) (c : ℤ × ℤ × ℤ) : FVal × DEM :=
  (s.darcy.norm (d_idx s.darcy c.1 c.2.1 c.2.2), s)

/-- The interior-cell list scanned by avgNormResDarcy and maxNormResDarcy,
bounded by grid.num. -/
def resCells (s : DEM) : List (ℤ × ℤ × ℤ) :=
  cellsZYX s.grid.num0 s.grid.num1 s.grid.num2

/-- The summation loop of DEM::avgNormResDarcy: accumulate the residuals,
exiting with the fatal diagnostic on the first NaN. The accumulator starts
from the caller-supplied value because the C++ local norm_res_sum is never
initialized. -/
def sumNormSt (acc : ℚ) : List (ℤ × ℤ × ℤ) → DEM → Except Fatal ℚ × DEM
  | [], s => (.ok acc, s)
  | c :: rest, s =>
    match readNorm s c with
    | (.nan, s1) => (.error (fatalAt s1 c), s1)
    | (.fin q, s1) => sumNormSt (acc + q) rest s1

/-- DEM::avgNormResDarcy: sum of interior residuals divided by the interior
cell count, parameterized by the indeterminate initial accumulator value. -/
def avgNormResDarcy (init : ℚ) (s : DEM) : Except Fatal ℚ × DEM :=
  match sumNormSt init (resCells s) s with
  | (.ok sum, s1) =>
      (.ok (sum / ((s.grid.num0 * s.grid.num1 * s.grid.num2 : ℤ) : ℚ)), s1)
  | (.error f, s1) => (.error f, s1)

/-- The maximum loop of DEM::maxNormResDarcy: keep the largest residual so
far, exiting with the fatal diagnostic on the first NaN. -/
def maxFoldSt (acc : ℚ) : List (ℤ × ℤ × ℤ) → DEM → Except Fatal ℚ × DEM
  | [], s => (.ok acc, s)
  | c :: rest, s =>
    match readNorm s c with
    | (.nan, s1) => (.error (fatalAt s1 c), s1)
    | (.fin q, s1) => maxFoldSt (if q > acc then q else acc) rest s1

/-- DEM::maxNormResDarcy: running maximum over interior cells starting from
the sentinel -1.0e9. -/
def maxNormResDarcy (s : DEM) : Except Fatal ℚ × DEM :=
  maxFoldSt (-1000000000) (resCells s) s

/-- Interior cell with respect to grid.num, the bounds used by the residual
scans. -/
def interiorG (s : DEM) (c : ℤ × ℤ × ℤ) : Prop :=
  0 ≤ c.1 ∧ c.1 < s.grid.num0 ∧ 0 ≤ c.2.1 ∧ c.2.1 < s.grid.num1 ∧
  0 ≤ c.2.2 ∧ c.2.2 < s.grid.num2

instance (s : DEM) (c : ℤ × ℤ × ℤ) : Decidable (interiorG s c) := by
  unfold interiorG; infer_instance

/-- Interior cell with respect to darcy.nx/ny/nz, the bounds used by the
stability scan. -/
def interiorD (s : DEM) (c : ℤ × ℤ × ℤ) : Prop :=
  0 ≤ c.1 ∧ c.1 < s.darcy.nx ∧ 0 ≤ c.2.1 ∧ c.2.1 < s.darcy.ny ∧
  0 ≤ c.2.2 ∧ c.2.2 < s.darcy.nz

instance (s : DEM) (c : ℤ × ℤ × ℤ) : Decidable (interiorD s c) := by
  unfold interiorD; infer_instance

/-- Lexicographic order on cells matching the x-outer, then y, then z scan
order of checkDarcyStability. -/
def lexLt (a b : ℤ × ℤ × ℤ) : Prop :=
  a.1 < b.1 ∨ (a.1 = b.1 ∧ (a.2.1 < b.2.1 ∨ (a.2.1 = b.2.1 ∧ a.2.2 < b.2.2)))

/-- Record of the allocations performed by DEM::initDarcyMem: the grid
dimensions copied from grid.num and the length of each allocated array. -/
structure DarcyAlloc where
  nx : ℤ
  ny : ℤ
  nz : ℤ
  pLen : ℤ
  vLen : ℤ
  phiLen : ℤ
  dphiLen : ℤ
  normLen : ℤ
  fpLen : ℤ
deriving DecidableEq

/-- DEM::initDarcyMem: set darcy.nx/ny/nz from grid.num, compute
ncells = darcyCells(), and allocate p, v, phi, dphi, norm at ncells and
f_p at np. -/
def initDarcyMem (s : DEM) : DarcyAlloc :=
  let d : Darcy :=
    { s.darcy with
      nx := s.grid.num0
      ny := s.grid.num1
      nz := s.grid.num2 }
  let ncells : ℤ := darcyCells d
  ⟨d.nx, d.ny, d.nz, ncells, ncells, ncells, ncells, ncells, s.np⟩

/-- A 1x1x1 unit-cube grid used by the concrete witness states. -/
def baseGrid : Grid :=
  { num0 := 1, num1 := 1, num2 := 1, L0 := 1, L1 := 1, L2 := 1 }

/-- Builder for concrete 1x1x1 witness states. -/
def mkState (mu dt cur : ℚ) (vel : Float3) (nrm : ℤ → FVal) : DEM :=
  { grid := baseGrid
    darcy := { nx := 1, ny := 1, nz := 1, p := fun _ => .fin 0,
               v := fun _ => vel, phi := fun _ => .fin 0,
               dphi := fun _ => .fin 0, norm := nrm,
               f_p := fun _ => ⟨0, 0, 0, 0⟩ }
    params := { mu := mu }
    time := { dt := dt, current := cur }
    np := 0 }

/-- All-zero residual field on the unit grid. -/
def sZero : DEM := mkState 0 1 0 ⟨0, 0, 0⟩ (fun _ => .fin 0)

/-- State whose diffusion number is exactly 1, violating the bound. -/
def sDiff : DEM := mkState 1 1 0 ⟨0, 0, 0⟩ (fun _ => .fin 0)

/-- State sitting exactly on both stability bounds. -/
def sOk : DEM := mkState (1/2) 1 0 ⟨1, 0, 0⟩ (fun _ => .fin 0)

/-- State with a NaN residual in the interior, at time 3 with dt 1. -/
def sNaN : DEM := mkState 0 1 3 ⟨0, 0, 0⟩ (fun _ => .nan)

/-- State whose single interior residual is 2. -/
def sMax : DEM := mkState 0 1 0 ⟨0, 0, 0⟩ (fun _ => .fin 2)

/-- State with a huge negative uniform velocity. -/
def sBig : DEM := mkState 0 1 0 ⟨-1000000000, 0, 0⟩ (fun _ => .fin 0)

/-- State with uniform velocity (2, 0, 0), violating the advection bound. -/
def sAdv : DEM := mkState 0 1 0 ⟨2, 0, 0⟩ (fun _ => .fin 0)

/-- The rational carried by a finite FVal (0 for NaN, never used there). -/
def finVal (v : FVal) : ℚ :=
  match v with
  | .nan => 0
  | .fin q => q

/- Mixed-radix helper lemmas for the index mapping. -/

lemma mixedRadix_inj {W H a b c a' b' c' : ℤ}
    (hW : 0 < W) (hH : 0 < H)
    (ha : 0 ≤ a) (haW : a < W) (ha' : 0 ≤ a') (haW' : a' < W)
    (hb : 0 ≤ b) (hbH : b < H) (hb' : 0 ≤ b') (hbH' : b' < H)
    (h : a + W * b + W * H * c = a' + W * b' + W * H * c') :
    a = a' ∧ b = b' ∧ c = c' := by
  have hrw : a + W * (b + H * c) = a' + W * (b' + H * c') := by ring_nf; ring_nf at h; linarith
  have hmod : (a + W * (b + H * c)) % W = (a' + W * (b' + H * c')) % W := by rw [hrw]
  rw [Int.add_mul_emod_self_left, Int.add_mul_emod_self_left,
      Int.emod_eq_of_lt ha haW, Int.emod_eq_of_lt ha' haW'] at hmod
  subst hmod
  have hW0 : W ≠ 0 := ne_of_gt hW
  have h2 : b + H * c = b' + H * c' := by
    have := hrw
    have hmul : W * (b + H * c) = W * (b' + H * c') := by linarith
    exact mul_left_cancel₀ hW0 hmul
  have hmod2 : (b + H * c) % H = (b' + H * c') % H := by rw [h2]
  rw [Int.add_mul_emod_self_left, Int.add_mul_emod_self_left,
      Int.emod_eq_of_lt hb hbH, Int.emod_eq_of_lt hb' hbH'] at hmod2
  subst hmod2
  have hH0 : H ≠ 0 := ne_of_gt hH
  have h3 : c = c' := by
    have hmul : H * c = H * c' := by linarith
    exact mul_left_cancel₀ hH0 hmul
  exact ⟨rfl, rfl, h3⟩

lemma mixedRadix_surj {W H D o : ℤ} (hW : 0 < W) (hH : 0 < H) (hD : 0 < D)
    (ho : 0 ≤ o) (hoU : o < W * H * D) :
    ∃ a b c, 0 ≤ a ∧ a < W ∧ 0 ≤ b ∧ b < H ∧ 0 ≤ c ∧ c < D ∧
      a + W * b + W * H * c = o := by
  have hW0 : W ≠ 0 := ne_of_gt hW
  have hH0 : H ≠ 0 := ne_of_gt hH
  refine ⟨o % W, (o / W) % H, o / W / H, Int.emod_nonneg o hW0,
    Int.emod_lt_of_pos o hW, Int.emod_nonneg _ hH0, Int.emod_lt_of_pos _ hH,
    Int.ediv_nonneg (Int.ediv_nonneg ho (le_of_lt hW)) (le_of_lt hH), ?_, ?_⟩
  · have h1 : o < H * D * W := by rw [mul_comm]; rw [← mul_assoc]; exact hoU
    have h2 : o / W < H * D := Int.ediv_lt_of_lt_mul hW h1
    have h3 : o / W < D * H := by rw [mul_comm]; exact h2
    exact Int.ediv_lt_of_lt_mul hH h3
  · have e1 : W * (o / W) + o % W = o := Int.ediv_add_emod o W
    have e2 : H * (o / W / H) + (o / W) % H = o / W := Int.ediv_add_emod (o / W) H
    nlinarith [e1, e2]

/-- C1: over every grid with nx, ny, nz at least 1, d_idx is injective on the
padded coordinate range -1..n per axis, maps that range into
0..darcyCells-1, and every offset in that interval is attained. -/
theorem d_idx_bijective_on_padded_range (d : Darcy)
    (h : 1 ≤ d.nx ∧ 1 ≤ d.ny ∧ 1 ≤ d.nz) :
    (∀ x y z x' y' z', inPad d x y z → inPad d x' y' z' →
      d_idx d x y z = d_idx d x' y' z' → x = x' ∧ y = y' ∧ z = z') ∧
    (∀ x y z, inPad d x y z →
      0 ≤ d_idx d x y z ∧ d_idx d x y z < darcyCells d) ∧
    (∀ o : ℤ, 0 ≤ o → o < darcyCells d →
      ∃ x y z, inPad d x y z ∧ d_idx d x y z = o) := by
  obtain ⟨hx, hy, hz⟩ := h
  have hW : (0:ℤ) < d.nx + 2 := by omega
  have hH : (0:ℤ) < d.ny + 2 := by omega
  have hD : (0:ℤ) < d.nz + 2 := by omega
  refine ⟨?_, ?_, ?_⟩
  · intro x y z x' y' z' hp hp' heq
    obtain ⟨h1, h2, h3, h4, h5, h6⟩ := hp
    obtain ⟨h1', h2', h3', h4', h5', h6'⟩ := hp'
    have := @mixedRadix_inj (d.nx + 2) (d.ny + 2) (x + 1) (y + 1) (z + 1)
      (x' + 1) (y' + 1) (z' + 1) hW hH
      (by omega) (by omega) (by omega) (by omega)
      (by omega) (by omega) (by omega) (by omega)
      (by unfold d_idx at heq; linarith)
    omega
  · intro x y z hp
    obtain ⟨h1, h2, h3, h4, h5, h6⟩ := hp
    unfold d_idx darcyCells
    have hxy : 0 ≤ (d.nx + 2) * (y + 1) := mul_nonneg (by omega) (by omega)
    have hxyz : 0 ≤ (d.nx + 2) * (d.ny + 2) * (z + 1) :=
      mul_nonneg (mul_nonneg (by omega) (by omega)) (by omega)
    constructor
    · omega
    · have hb : (d.nx + 2) * (y + 1) ≤ (d.nx + 2) * (d.ny + 1) :=
        mul_le_mul_of_nonneg_left (by omega) (by omega)
      have hc : (d.nx + 2) * (d.ny + 2) * (z + 1) ≤
          (d.nx + 2) * (d.ny + 2) * (d.nz + 1) :=
        mul_le_mul_of_nonneg_left (by omega) (mul_nonneg (by omega) (by omega))
      have key : (d.nx + 1) + (d.nx + 2) * (d.ny + 1) +
          (d.nx + 2) * (d.ny + 2) * (d.nz + 1) =
          (d.nx + 2) * (d.ny + 2) * (d.nz + 2) - 1 := by ring
      linarith
  · intro o ho hoU
    obtain ⟨a, b, c, ha, haW, hb, hbH, hc, hcD, habc⟩ :=
      mixedRadix_surj hW hH hD ho (by unfold darcyCells at hoU; linarith)
    refine ⟨a - 1, b - 1, c - 1, by unfold inPad; omega, ?_⟩
    unfold d_idx
    simp only [sub_add_cancel]
    exact habc

/-- C1 witness: the bound and a concrete evaluation on a 1x1x1 grid. -/
theorem d_idx_bijective_witness :
    0 ≤ d_idx dWitness 1 1 1 ∧ d_idx dWitness 1 1 1 < darcyCells dWitness :=
  (d_idx_bijective_on_padded_range dWitness (by decide)).2.1 1 1 1 (by decide)

/- Helper lemmas about the cell lists. -/

lemma mem_cellsXYZ {nx ny nz x y z : ℤ} :
    (x, y, z) ∈ cellsXYZ nx ny nz ↔
      0 ≤ x ∧ x < nx ∧ 0 ≤ y ∧ y < ny ∧ 0 ≤ z ∧ z < nz := by
  constructor
  · intro h
    obtain ⟨a, ha, h2⟩ := List.mem_flatMap.mp h
    obtain ⟨b, hb, h3⟩ := List.mem_flatMap.mp h2
    obtain ⟨cc, hcc, h4⟩ := List.mem_map.mp h3
    rw [List.mem_range] at ha hb hcc
    simp only [Prod.mk.injEq] at h4
    obtain ⟨e1, e2, e3⟩ := h4
    omega
  · rintro ⟨h1, h2, h3, h4, h5, h6⟩
    refine List.mem_flatMap.mpr ⟨x.toNat, List.mem_range.mpr (by omega), ?_⟩
    refine List.mem_flatMap.mpr ⟨y.toNat, List.mem_range.mpr (by omega), ?_⟩
    refine List.mem_map.mpr ⟨z.toNat, List.mem_range.mpr (by omega), ?_⟩
    simp only [Prod.mk.injEq]
    omega

lemma mem_cellsZYX {nx ny nz x y z : ℤ} :
    (x, y, z) ∈ cellsZYX nx ny nz ↔
      0 ≤ x ∧ x < nx ∧ 0 ≤ y ∧ y < ny ∧ 0 ≤ z ∧ z < nz := by
  constructor
  · intro h
    obtain ⟨a, ha, h2⟩ := List.mem_flatMap.mp h
    obtain ⟨b, hb, h3⟩ := List.mem_flatMap.mp h2
    obtain ⟨cc, hcc, h4⟩ := List.mem_map.mp h3
    rw [List.mem_range] at ha hb hcc
    simp only [Prod.mk.injEq] at h4
    obtain ⟨e1, e2, e3⟩ := h4
    omega
  · rintro ⟨h1, h2, h3, h4, h5, h6⟩
    refine List.mem_flatMap.mpr ⟨z.toNat, List.mem_range.mpr (by omega), ?_⟩
    refine List.mem_flatMap.mpr ⟨y.toNat, List.mem_range.mpr (by omega), ?_⟩
    refine List.mem_map.mpr ⟨x.toNat, List.mem_range.mpr (by omega), ?_⟩
    simp only [Prod.mk.injEq]
    omega

lemma lexLt_irrefl (c : ℤ × ℤ × ℤ) : ¬ lexLt c c := by
  unfold lexLt; omega

lemma lexLt_asymm {a b : ℤ × ℤ × ℤ} (h : lexLt a b) : ¬ lexLt b a := by
  unfold lexLt at *; omega

lemma pairwise_cellsXYZ (nx ny nz : ℤ) : (cellsXYZ nx ny nz).Pairwise lexLt := by
  unfold cellsXYZ
  rw [List.pairwise_flatMap]
  refine ⟨fun a _ => ?_, ?_⟩
  · rw [List.pairwise_flatMap]
    refine ⟨fun b _ => ?_, ?_⟩
    · rw [List.pairwise_map]
      exact List.Pairwise.imp
        (fun {u v} huv =>
          Or.inr ⟨rfl, Or.inr ⟨rfl, show ((u : ℕ) : ℤ) < ((v : ℕ) : ℤ) by omega⟩⟩)
        (List.pairwise_lt_range _)
    · refine List.Pairwise.imp ?_ (List.pairwise_lt_range _)
      intro u v huv p hp q hq
      obtain ⟨pz, _, rfl⟩ := List.mem_map.mp hp
      obtain ⟨qz, _, rfl⟩ := List.mem_map.mp hq
      exact Or.inr ⟨rfl, Or.inl (show ((u : ℕ) : ℤ) < ((v : ℕ) : ℤ) by omega)⟩
  · refine List.Pairwise.imp ?_ (List.pairwise_lt_range _)
    intro u v huv p hp q hq
    obtain ⟨py, _, hp2⟩ := List.mem_flatMap.mp hp
    obtain ⟨qy, _, hq2⟩ := List.mem_flatMap.mp hq
    obtain ⟨pz, _, rfl⟩ := List.mem_map.mp hp2
    obtain ⟨qz, _, rfl⟩ := List.mem_map.mp hq2
    exact Or.inl (show ((u : ℕ) : ℤ) < ((v : ℕ) : ℤ) by omega)

/- Helper lemmas about the residual folds. -/

lemma readNorm_eq (s : DEM) (c : ℤ × ℤ × ℤ) : readNorm s c = (normAt s c, s) := rfl

lemma sumNormSt_state (l : List (ℤ × ℤ × ℤ)) :
    ∀ (acc : ℚ) (s : DEM), (sumNormSt acc l s).2 = s := by
  induction l with
  | nil => intro acc s; rfl
  | cons c rest ih =>
    intro acc s
    simp only [sumNormSt, readNorm]
    cases h : s.darcy.norm (d_idx s.darcy c.1 c.2.1 c.2.2) with
    | nan => simp [h]
    | fin q => simp [h, ih]

lemma maxFoldSt_state (l : List (ℤ × ℤ × ℤ)) :
    ∀ (acc : ℚ) (s : DEM), (maxFoldSt acc l s).2 = s := by
  induction l with
  | nil => intro acc s; rfl
  | cons c rest ih =>
    intro acc s
    simp only [maxFoldSt, readNorm]
    cases h : s.darcy.norm (d_idx s.darcy c.1 c.2.1 c.2.2) with
    | nan => simp [h]
    | fin q => simp [h, ih]

lemma sumNormSt_error_of_nan (l : List (ℤ × ℤ × ℤ)) :
    ∀ (acc : ℚ) (s : DEM), (∃ c ∈ l, normAt s c = .nan) →
      ∃ c ∈ l, normAt s c = .nan ∧ (sumNormSt acc l s).1 = .error (fatalAt s c) := by
  induction l with
  | nil => intro acc s h; simp at h
  | cons c rest ih =>
    intro acc s h
    simp only [sumNormSt, readNorm]
    cases hc : s.darcy.norm (d_idx s.darcy c.1 c.2.1 c.2.2) with
    | nan =>
      exact ⟨c, List.mem_cons_self c rest, hc, by simp [hc]⟩
    | fin q =>
      have hrest : ∃ c' ∈ rest, normAt s c' = .nan := by
        obtain ⟨c', hc', hn⟩ := h
        rcases List.mem_cons.mp hc' with rfl | hmem
        · rw [normAt] at hn; rw [hn] at hc; cases hc
        · exact ⟨c', hmem, hn⟩
      obtain ⟨c', hc', hn, hres⟩ := ih (acc + q) s hrest
      exact ⟨c', List.mem_cons_of_mem c hc', hn, by simp [hc, hres]⟩

lemma maxFoldSt_error_of_nan (l : List (ℤ × ℤ × ℤ)) :
    ∀ (acc : ℚ) (s : DEM), (∃ c ∈ l, normAt s c = .nan) →
      ∃ c ∈ l, normAt s c = .nan ∧ (maxFoldSt acc l s).1 = .error (fatalAt s c) := by
  induction l with
  | nil => intro acc s h; simp at h
  | cons c rest ih =>
    intro acc s h
    simp only [maxFoldSt, readNorm]
    cases hc : s.darcy.norm (d_idx s.darcy c.1 c.2.1 c.2.2) with
    | nan =>
      exact ⟨c, List.mem_cons_self c rest, hc, by simp [hc]⟩
    | fin q =>
      have hrest : ∃ c' ∈ rest, normAt s c' = .nan := by
        obtain ⟨c', hc', hn⟩ := h
        rcases List.mem_cons.mp hc' with rfl | hmem
        · rw [normAt] at hn; rw [hn] at hc; cases hc
        · exact ⟨c', hmem, hn⟩
      obtain ⟨c', hc', hn, hres⟩ := ih (if q > acc then q else acc) s hrest
      exact ⟨c', List.mem_cons_of_mem c hc', hn, by simp [hc, hres]⟩

lemma maxFoldSt_ok_of_finite (l : List (ℤ × ℤ × ℤ)) :
    ∀ (acc : ℚ) (s : DEM), (∀ c ∈ l, normAt s c ≠ .nan) →
      (maxFoldSt acc l s).1 =
        .ok (l.foldl (fun a c => max a (finVal (normAt s c))) acc) := by
  induction l with
  | nil => intro acc s _; rfl
  | cons c rest ih =>
    intro acc s hno
    simp only [maxFoldSt, readNorm]
    cases hc : s.darcy.norm (d_idx s.darcy c.1 c.2.1 c.2.2) with
    | nan =>
      exact absurd hc (hno c (List.mem_cons_self c rest))
    | fin q =>
      have hstep : (if q > acc then q else acc) = max acc (finVal (normAt s c)) := by
        rw [normAt, hc, finVal]
        split
        · exact (max_eq_right (le_of_lt (by assumption))).symm
        · exact (max_eq_left (by linarith [not_lt.mp (by assumption)])).symm
      simp only [hc, List.foldl_cons, ← hstep]
      exact ih _ s fun c' hc' => hno c' (List.mem_cons_of_mem c hc')

lemma foldl_max_le {l : List (ℤ × ℤ × ℤ)} {f : ℤ × ℤ × ℤ → ℚ} :
    ∀ {acc B : ℚ}, acc ≤ B → (∀ c ∈ l, f c ≤ B) →
      l.foldl (fun a c => max a (f c)) acc ≤ B := by
  induction l with
  | nil => intro acc B h _; simpa using h
  | cons c rest ih =>
    intro acc B h hall
    simp only [List.foldl_cons]
    exact ih (max_le h (hall c (List.mem_cons_self c rest)))
      fun c' hc' => hall c' (List.mem_cons_of_mem c hc')

lemma le_foldl_max_acc {l : List (ℤ × ℤ × ℤ)} {f : ℤ × ℤ × ℤ → ℚ} :
    ∀ {acc : ℚ}, acc ≤ l.foldl (fun a c => max a (f c)) acc := by
  induction l with
  | nil => intro acc; simp
  | cons c rest ih =>
    intro acc
    simp only [List.foldl_cons]
    exact le_trans (le_max_left _ _) ih

lemma le_foldl_max_mem {l : List (ℤ × ℤ × ℤ)} {f : ℤ × ℤ × ℤ → ℚ} {c : ℤ × ℤ × ℤ} :
    c ∈ l → ∀ {acc : ℚ}, f c ≤ l.foldl (fun a c => max a (f c)) acc := by
  induction l with
  | nil => intro h; simp at h
  | cons c' rest ih =>
    intro hmem acc
    rcases List.mem_cons.mp hmem with rfl | hmem'
    · simp only [List.foldl_cons]
      exact le_trans (le_max_right _ _) le_foldl_max_acc
    · simp only [List.foldl_cons]
      exact ih hmem'

/-- C3: checkDarcyStability exits with the diffusion diagnostic exactly when
viscosity*dt/dmin^2 exceeds 1/2, for every state (hence independently of the
velocity field); at 1/2 + eps it fails and at 1/2 - eps it passes. -/
theorem diffusion_check_iff (s : DEM) :
    (checkDarcyStability s = .diffusionUnstable ↔ diffusionLHS s > 1/2) ∧
    (∀ ε : ℚ, 0 < ε →
      (diffusionLHS s = 1/2 + ε → checkDarcyStability s = .diffusionUnstable) ∧
      (diffusionLHS s = 1/2 - ε → checkDarcyStability s ≠ .diffusionUnstable)) := by
  by_cases h : diffusionLHS s > 1/2
  · have hres : checkDarcyStability s = .diffusionUnstable := by
      unfold checkDarcyStability
      rw [if_pos h]
    refine ⟨⟨fun _ => h, fun _ => hres⟩, fun ε hε => ⟨fun _ => hres, fun habs => ?_⟩⟩
    exact absurd h (by rw [habs]; linarith)
  · have hne : checkDarcyStability s ≠ .diffusionUnstable := by
      unfold checkDarcyStability
      rw [if_neg h]
      split <;> simp
    refine ⟨⟨fun hc => absurd hc hne, fun hgt => absurd hgt h⟩,
      fun ε hε => ⟨fun heq => absurd (show diffusionLHS s > 1/2 by rw [heq]; linarith) h,
        fun _ => hne⟩⟩

/-- C3 witness: a state with diffusion number 1 = 1/2 + 1/2 is rejected. -/
theorem diffusion_check_iff_witness : checkDarcyStability sDiff = .diffusionUnstable :=
  ((diffusion_check_iff sDiff).2 (1/2) (by norm_num)).1
    (by norm_num [diffusionLHS, dminQ, dxQ, dyQ, dzQ, sDiff, mkState, baseGrid])

/-- C9: sitting exactly on both bounds passes: diffusion number exactly 1/2
and every interior Courant sum exactly 1 give a normal return. -/
theorem exact_bounds_pass (s : DEM)
    (h1 : diffusionLHS s = 1/2)
    (h2 : ∀ c, interiorD s c → courantQ s c = 1) :
    checkDarcyStability s = .ok := by
  unfold checkDarcyStability
  rw [if_neg (by rw [h1]; exact lt_irrefl _)]
  have hnone : (cellsXYZ s.darcy.nx s.darcy.ny s.darcy.nz).find?
      (fun c => decide (courantQ s c > 1)) = none := by
    rw [List.find?_eq_none]
    intro c hc
    obtain ⟨x, y, z⟩ := c
    have hint : interiorD s (x, y, z) := mem_cellsXYZ.mp hc
    simp only [decide_eq_true_eq]
    rw [h2 _ hint]
    exact lt_irrefl 1
  rw [hnone]

/-- C9 witness: the state sOk sits exactly on both bounds and passes. -/
theorem exact_bounds_pass_witness : checkDarcyStability sOk = .ok :=
  exact_bounds_pass sOk
    (by norm_num [diffusionLHS, dminQ, dxQ, dyQ, dzQ, sOk, mkState, baseGrid])
    (fun c _ => by
      norm_num [courantQ, d_idx, sOk, mkState, baseGrid, dxQ, dyQ, dzQ])

/-- C10: the advection check sums signed components; a uniform velocity
(-V, 0, 0) with V positive and arbitrary never triggers the advection
diagnostic. -/
theorem signed_courant_no_abs (s : DEM) (V : ℚ) (hV : 0 < V)
    (hvel : ∀ i, s.darcy.v i = ⟨-V, 0, 0⟩)
    (hdt : 0 < s.time.dt) (hdx : 0 < dxQ s) :
    ∀ x y z w, checkDarcyStability s ≠ .advectionUnstable x y z w := by
  intro x y z w
  unfold checkDarcyStability
  by_cases h : diffusionLHS s > 1/2
  · rw [if_pos h]; simp
  · rw [if_neg h]
    have hnone : (cellsXYZ s.darcy.nx s.darcy.ny s.darcy.nz).find?
        (fun c => decide (courantQ s c > 1)) = none := by
      rw [List.find?_eq_none]
      intro c hc
      simp only [decide_eq_true_eq]
      have hle : courantQ s c ≤ 0 := by
        rw [courantQ, hvel]
        show (-V) * s.time.dt / dxQ s + (0:ℚ) * s.time.dt / dyQ s +
          (0:ℚ) * s.time.dt / dzQ s ≤ 0
        have hpos : 0 ≤ V * s.time.dt / dxQ s := by positivity
        have hneg : (-V) * s.time.dt / dxQ s = -(V * s.time.dt / dxQ s) := by ring
        rw [hneg]
        simp only [zero_mul, zero_div, add_zero]
        linarith
      intro hgt
      linarith
    rw [hnone]
    simp

/-- C10 witness: velocity (-1e9, 0, 0) passes the advection check. -/
theorem signed_courant_no_abs_witness :
    checkDarcyStability sBig ≠ .advectionUnstable 0 0 0 ⟨-1000000000, 0, 0⟩ :=
  signed_courant_no_abs sBig 1000000000 (by norm_num)
    (fun i => rfl)
    (by norm_num [sBig, mkState, baseGrid])
    (by norm_num [dxQ, sBig, mkState, baseGrid])
    0 0 0 ⟨-1000000000, 0, 0⟩

lemma interiorG_iff_mem {s : DEM} {c : ℤ × ℤ × ℤ} :
    c ∈ resCells s ↔ interiorG s c := by
  obtain ⟨x, y, z⟩ := c
  unfold resCells interiorG
  exact mem_cellsZYX

lemma avg_of_sum_error {s : DEM} {init : ℚ} {f : Fatal}
    (h : (sumNormSt init (resCells s) s).1 = .error f) :
    (avgNormResDarcy init s).1 = .error f := by
  unfold avgNormResDarcy
  rcases hp : sumNormSt init (resCells s) s with ⟨r, s1⟩
  rw [hp] at h
  cases r with
  | ok q => exact absurd h (by simp)
  | error f2 => simpa using h

/-- C5: a NaN in any interior residual cell makes both avgNormResDarcy and
maxNormResDarcy exit with the fatal diagnostic carrying an offending cell's
coordinates, the simulation time and the iteration count time/dt; neither
returns a value. -/
theorem nan_residual_fatal (s : DEM) (init : ℚ)
    (h : ∃ c, interiorG s c ∧ normAt s c = .nan) :
    (∃ c, interiorG s c ∧ normAt s c = .nan ∧
       (avgNormResDarcy init s).1 = .error ⟨c.1, c.2.1, c.2.2, s.time.current,
         cTrunc (s.time.current / s.time.dt)⟩) ∧
    (∃ c, interiorG s c ∧ normAt s c = .nan ∧
       (maxNormResDarcy s).1 = .error ⟨c.1, c.2.1, c.2.2, s.time.current,
         cTrunc (s.time.current / s.time.dt)⟩) ∧
    (∀ q, (avgNormResDarcy init s).1 ≠ .ok q) ∧
    (∀ q, (maxNormResDarcy s).1 ≠ .ok q) := by
  obtain ⟨c0, hint, hnan⟩ := h
  have hmem : c0 ∈ resCells s := interiorG_iff_mem.mpr hint
  have hex : ∃ c ∈ resCells s, normAt s c = .nan := ⟨c0, hmem, hnan⟩
  obtain ⟨c1, hc1, hn1, hres1⟩ := sumNormSt_error_of_nan (resCells s) init s hex
  obtain ⟨c2, hc2, hn2, hres2⟩ := maxFoldSt_error_of_nan (resCells s) (-1000000000) s hex
  have havg : (avgNormResDarcy init s).1 = .error (fatalAt s c1) := avg_of_sum_error hres1
  have hmax : (maxNormResDarcy s).1 = .error (fatalAt s c2) := by
    rw [maxNormResDarcy]; exact hres2
  refine ⟨⟨c1, interiorG_iff_mem.mp hc1, hn1, havg⟩,
    ⟨c2, interiorG_iff_mem.mp hc2, hn2, hmax⟩, ?_, ?_⟩
  · intro q hq
    rw [havg] at hq
    exact absurd hq (by simp)
  · intro q hq
    rw [hmax] at hq
    exact absurd hq (by simp)

/-- C5 witness: the NaN state triggers both fatal exits. -/
theorem nan_residual_fatal_witness :
    (∃ c, interiorG sNaN c ∧ normAt sNaN c = .nan ∧
       (avgNormResDarcy 0 sNaN).1 = .error ⟨c.1, c.2.1, c.2.2, sNaN.time.current,
         cTrunc (sNaN.time.current / sNaN.time.dt)⟩) ∧
    (∃ c, interiorG sNaN c ∧ normAt sNaN c = .nan ∧
       (maxNormResDarcy sNaN).1 = .error ⟨c.1, c.2.1, c.2.2, sNaN.time.current,
         cTrunc (sNaN.time.current / sNaN.time.dt)⟩) ∧
    (∀ q, (avgNormResDarcy 0 sNaN).1 ≠ .ok q) ∧
    (∀ q, (maxNormResDarcy sNaN).1 ≠ .ok q) :=
  nan_residual_fatal sNaN 0 ⟨(0, 0, 0), by decide, rfl⟩

/-- C6: with a single positive interior residual M and zeros elsewhere,
maxNormResDarcy returns M (the sentinel -1.0e9 is below both). -/
theorem max_single_peak (s : DEM) (c0 : ℤ × ℤ × ℤ) (M : ℚ) (hM : 0 < M)
    (h0 : interiorG s c0) (hc0 : normAt s c0 = .fin M)
    (hothers : ∀ c, interiorG s c → c ≠ c0 → normAt s c = .fin 0) :
    (maxNormResDarcy s).1 = .ok M := by
  have hno : ∀ c ∈ resCells s, normAt s c ≠ .nan := by
    intro c hc
    by_cases hceq : c = c0
    · rw [hceq, hc0]; exact fun h => FVal.noConfusion h
    · rw [hothers c (interiorG_iff_mem.mp hc) hceq]
      exact fun h => FVal.noConfusion h
  rw [maxNormResDarcy, maxFoldSt_ok_of_finite (resCells s) (-1000000000) s hno]
  congr 1
  apply le_antisymm
  · apply foldl_max_le
    · linarith
    · intro c hc
      by_cases hceq : c = c0
      · rw [hceq]
        have : finVal (normAt s c0) = M := by rw [hc0]; rfl
        rw [this]
      · rw [hothers c (interiorG_iff_mem.mp hc) hceq]
        show finVal (.fin 0) ≤ M
        rw [finVal]
        linarith
  · have hmem : c0 ∈ resCells s := interiorG_iff_mem.mpr h0
    have := @le_foldl_max_mem (resCells s) (fun c => finVal (normAt s c)) c0
      hmem (-1000000000)
    rw [hc0] at this
    exact this

/-- C6 witness: the single interior residual 2 is returned. -/
theorem max_single_peak_witness : (maxNormResDarcy sMax).1 = .ok 2 :=
  max_single_peak sMax (0, 0, 0) 2 (by norm_num) (by decide) rfl
    (by
      intro c hc hne
      exfalso
      apply hne
      obtain ⟨x, y, z⟩ := c
      simp only [interiorG] at hc
      have e0 : sMax.grid.num0 = 1 := rfl
      have e1 : sMax.grid.num1 = 1 := rfl
      have e2 : sMax.grid.num2 = 1 := rfl
      rw [e0, e1, e2] at hc
      obtain ⟨a1, a2, a3, a4, a5, a6⟩ := hc
      simp only [Prod.mk.injEq]
      exact ⟨by omega, by omega, by omega⟩)

/-- C2 (code defect evaluation): the mean over the all-zero 1x1x1 interior
field equals the indeterminate initial accumulator value, so it is 0 only
when that value happens to be 0. -/
theorem avg_uninitialized_accumulator :
    (avgNormResDarcy 1 sZero).1 = .ok 1 ∧ (avgNormResDarcy 0 sZero).1 = .ok 0 := by
  constructor <;>
    norm_num [avgNormResDarcy, sumNormSt, resCells, cellsZYX, readNorm, sZero, mkState,
      baseGrid, List.range_succ, d_idx]

/-- C7: initDarcyMem allocates the five per-cell arrays at darcyCells with
dimensions taken from grid.num, i.e. (nx+2)(ny+2)(nz+2), and the particle
force array at np. -/
theorem initDarcyMem_sizes (s : DEM) :
    (initDarcyMem s).nx = s.grid.num0 ∧
    (initDarcyMem s).ny = s.grid.num1 ∧
    (initDarcyMem s).nz = s.grid.num2 ∧
    (initDarcyMem s).pLen =
      (s.grid.num0 + 2) * (s.grid.num1 + 2) * (s.grid.num2 + 2) ∧
    (initDarcyMem s).vLen = (initDarcyMem s).pLen ∧
    (initDarcyMem s).phiLen = (initDarcyMem s).pLen ∧
    (initDarcyMem s).dphiLen = (initDarcyMem s).pLen ∧
    (initDarcyMem s).normLen = (initDarcyMem s).pLen ∧
    (initDarcyMem s).fpLen = s.np :=
  ⟨rfl, rfl, rfl, rfl, rfl, rfl, rfl, rfl, rfl⟩

/-- C8: when they return normally, avgNormResDarcy and maxNormResDarcy leave
the whole DEM state, in particular every field array, unchanged. -/
theorem residual_stats_frame (s : DEM) (init : ℚ) :
    (∀ r, (avgNormResDarcy init s).1 = .ok r → (avgNormResDarcy init s).2 = s) ∧
    (∀ r, (maxNormResDarcy s).1 = .ok r → (maxNormResDarcy s).2 = s) := by
  have havg : (avgNormResDarcy init s).2 = s := by
    unfold avgNormResDarcy
    rcases hp : sumNormSt init (resCells s) s with ⟨r, s1⟩
    have hs : s1 = s := by
      have h2 := sumNormSt_state (resCells s) init s
      rw [hp] at h2
      exact h2
    cases r <;> simp [hs]
  have hmax : (maxNormResDarcy s).2 = s := by
    rw [maxNormResDarcy]
    exact maxFoldSt_state (resCells s) (-1000000000) s
  exact ⟨fun r _ => havg, fun r _ => hmax⟩

/-- C8 witness: on the all-zero state both functions return normally and the
state is unchanged. -/
theorem residual_stats_frame_witness :
    (avgNormResDarcy 0 sZero).2 = sZero ∧ (maxNormResDarcy sZero).2 = sZero :=
  ⟨(residual_stats_frame sZero 0).1 0
      (by norm_num [avgNormResDarcy, sumNormSt, resCells, cellsZYX, readNorm, sZero,
        mkState, baseGrid, List.range_succ, d_idx]),
   (residual_stats_frame sZero 0).2 0
      (by norm_num [maxNormResDarcy, maxFoldSt, resCells, cellsZYX, readNorm, sZero,
        mkState, baseGrid, List.range_succ, d_idx])⟩

/-- C4: given the diffusion bound holds, checkDarcyStability exits with the
advection diagnostic exactly when some interior cell violates the Courant
bound; the reported cell is the first violating cell in the x,y,z scan order
and the diagnostic carries that cell's coordinates and velocity. -/
theorem advection_first_violation (s : DEM)
    (hdiff : ¬ (diffusionLHS s > 1/2)) :
    ((∃ c, interiorD s c ∧ courantQ s c > 1) ↔
      (∃ x y z v, checkDarcyStability s = .advectionUnstable x y z v)) ∧
    (∀ x y z v, checkDarcyStability s = .advectionUnstable x y z v →
      interiorD s (x, y, z) ∧ courantQ s (x, y, z) > 1 ∧
      v = s.darcy.v (d_idx s.darcy x y z) ∧
      ∀ c, interiorD s c → lexLt c (x, y, z) → ¬ (courantQ s c > 1)) := by
  have hcheck : checkDarcyStability s =
      match (cellsXYZ s.darcy.nx s.darcy.ny s.darcy.nz).find?
          (fun c => decide (courantQ s c > 1)) with
      | some c => .advectionUnstable c.1 c.2.1 c.2.2
          (s.darcy.v (d_idx s.darcy c.1 c.2.1 c.2.2))
      | none => .ok := by
    unfold checkDarcyStability
    rw [if_neg hdiff]
  constructor
  · constructor
    · rintro ⟨c, hint, hviol⟩
      have hmem : c ∈ cellsXYZ s.darcy.nx s.darcy.ny s.darcy.nz := by
        obtain ⟨x, y, z⟩ := c
        exact mem_cellsXYZ.mpr hint
      have hsome : ((cellsXYZ s.darcy.nx s.darcy.ny s.darcy.nz).find?
          (fun c => decide (courantQ s c > 1))).isSome :=
        List.find?_isSome.mpr ⟨c, hmem, decide_eq_true hviol⟩
      obtain ⟨c', hc'⟩ := Option.isSome_iff_exists.mp hsome
      rw [hcheck, hc']
      exact ⟨c'.1, c'.2.1, c'.2.2,
        s.darcy.v (d_idx s.darcy c'.1 c'.2.1 c'.2.2), rfl⟩
    · rintro ⟨x, y, z, v, hres⟩
      rw [hcheck] at hres
      cases hfind : (cellsXYZ s.darcy.nx s.darcy.ny s.darcy.nz).find?
          (fun c => decide (courantQ s c > 1)) with
      | none => rw [hfind] at hres; simp at hres
      | some c =>
        have hp := List.find?_some hfind
        have hmem := List.mem_of_find?_eq_some hfind
        refine ⟨c, ?_, of_decide_eq_true hp⟩
        obtain ⟨cx, cy, cz⟩ := c
        exact mem_cellsXYZ.mp hmem
  · intro x y z v hres
    rw [hcheck] at hres
    cases hfind : (cellsXYZ s.darcy.nx s.darcy.ny s.darcy.nz).find?
        (fun c => decide (courantQ s c > 1)) with
    | none => rw [hfind] at hres; simp at hres
    | some c =>
      rw [hfind] at hres
      obtain ⟨cx, cy, cz⟩ := c
      simp only [StabResult.advectionUnstable.injEq] at hres
      obtain ⟨rfl, rfl, rfl, rfl⟩ := hres
      obtain ⟨hp, as1, bs1, heq, hpre⟩ := List.find?_eq_some.mp hfind
      refine ⟨mem_cellsXYZ.mp (List.mem_of_find?_eq_some hfind),
        of_decide_eq_true hp, rfl, ?_⟩
      intro c' hint' hlex hviol'
      have hmem' : c' ∈ cellsXYZ s.darcy.nx s.darcy.ny s.darcy.nz := by
        obtain ⟨a, b, cc⟩ := c'
        exact mem_cellsXYZ.mpr hint'
      rw [heq] at hmem'
      rcases List.mem_append.mp hmem' with hin | hin
      · have hfalse := hpre c' hin
        simp only [Bool.not_eq_true', decide_eq_false_iff_not] at hfalse
        exact hfalse hviol'
      · rcases List.mem_cons.mp hin with heq2 | hin2
        · exact lexLt_irrefl _ (heq2 ▸ hlex)
        · have hpw := pairwise_cellsXYZ s.darcy.nx s.darcy.ny s.darcy.nz
          rw [heq, List.pairwise_append] at hpw
          obtain ⟨_, hpw2, _⟩ := hpw
          rw [List.pairwise_cons] at hpw2
          exact lexLt_asymm (hpw2.1 c' hin2) hlex

/-- C4 witness: the uniform velocity 2 state triggers the advection exit. -/
theorem advection_first_violation_witness :
    ∃ x y z v, checkDarcyStability sAdv = .advectionUnstable x y z v :=
  (advection_first_violation sAdv
      (by norm_num [diffusionLHS, dminQ, dxQ, dyQ, dzQ, sAdv, mkState, baseGrid])).1.mp
    ⟨(0, 0, 0), by decide,
      by norm_num [courantQ, d_idx, sAdv, mkState, baseGrid, dxQ, dyQ, dzQ]⟩
